import Mathlib

/-!
Verification of the core JSON-to-TypeScript conversion algorithm of the
interface-generator repository (src/App.vue, `convertJsonToTypeScript`,
`generateTypeDefinition` and its helper functions), as a shallow embedding
in Lean 4.  The definitions below transcribe the TypeScript source; the
theorems settle the specification claims about it.
-/

namespace InterfaceGenerator

/-- Embedding of the `ConversionOptions` record of the source: the four
boolean configuration flags. -/
structure ConversionOptions where
  detectEnums : Bool
  camelCase : Bool
  markOptional : Bool
  strictNullChecks : Bool
deriving DecidableEq, Repr

/-- Embedding of the `JsonValue` type of the source: a decoded JSON value.
Numbers carry an integer payload; the algorithm never inspects the numeric
value, only its kind, so this loses nothing. -/
inductive JsonValue where
  | null
  | bool (b : Bool)
  | num (n : Int)
  | str (s : String)
  | arr (items : List JsonValue)
  | obj (fields : List (String × JsonValue))

/-- Character class `[a-zA-Z0-9_]` used by the sanitizing regexes. -/
def isWordChar (c : Char) : Bool :=
  c.isAlpha || c.isDigit || c == '_'

/-- Embedding of `name.replace(/[^a-zA-Z0-9_]/g, "")`: strip every
character outside `[A-Za-z0-9_]`. -/
def sanitizeName (s : String) : String :=
  (s.data.filter isWordChar).asString

/-- Embedding of the enum-key sanitization in `convertJsonToTypeScript`:
`value.replace(/[^a-zA-Z0-9_]/g, "_").replace(/^[0-9]/, "_$&")`. -/
def sanitizeEnumKey (s : String) : String :=
  let cs := s.data.map (fun c => if isWordChar c then c else '_')
  match cs with
  | [] => ""
  | c :: _ => if c.isDigit then "_" ++ cs.asString else cs.asString

/-- Embedding of `capitalizeFirstLetter`:
`string.charAt(0).toUpperCase() + string.slice(1)`. -/
def capitalizeFirstLetter (s : String) : String :=
  match s.data with
  | [] => ""
  | c :: rest => (c.toUpper :: rest).asString

/-- Recursive worker for `toCamelCase`, performing the global,
left-to-right, non-overlapping replacement of `/_([a-z])/` by the
upper-cased letter. -/
def camelCaseChars : List Char → List Char
  | [] => []
  | '_' :: c :: rest =>
      if c.isLower then c.toUpper :: camelCaseChars rest
      else '_' :: camelCaseChars (c :: rest)
  | c :: rest => c :: camelCaseChars rest

/-- Embedding of `toCamelCase`:
`str.replace(/_([a-z])/g, (_, letter) => letter.toUpperCase())`. -/
def toCamelCase (s : String) : String :=
  (camelCaseChars s.data).asString

/-- First character class of the bare-identifier regex
`^[a-zA-Z_$][a-zA-Z0-9_$]*$`. -/
def isIdentStart (c : Char) : Bool :=
  c.isAlpha || c == '_' || c == '$'

/-- Subsequent character class of the bare-identifier regex. -/
def isIdentChar (c : Char) : Bool :=
  isIdentStart c || c.isDigit

/-- Test of the regex `^[a-zA-Z_$][a-zA-Z0-9_$]*$`. -/
def isBareIdent (s : String) : Bool :=
  match s.data with
  | [] => false
  | c :: rest => isIdentStart c && rest.all isIdentChar

/-- A single-quote character as a string (used when wrapping
non-identifier property keys, as the source does with quotes). -/
def squote : String := String.singleton (Char.ofNat 39)

/-- Embedding of `formatPropertyKey`: camel-case the key when the flag is
set, then wrap it in quotes unless it is a syntactically bare
identifier. -/
def formatPropertyKey (opts : ConversionOptions) (key : String) : String :=
  let formattedKey := if opts.camelCase then toCamelCase key else key
  if isBareIdent formattedKey then formattedKey
  else squote ++ formattedKey ++ squote

/-- Worker for `dedupFirst`: keeps the first occurrence of each element,
like iterating a JavaScript `Set` built from the list. -/
def dedupFirstAux (seen : List String) : List String → List String
  | [] => []
  | x :: xs =>
      if x ∈ seen then dedupFirstAux seen xs
      else x :: dedupFirstAux (x :: seen) xs

/-- Embedding of `[...new Set(xs)]`: the distinct elements of `xs` in
first-seen order. -/
def dedupFirst (xs : List String) : List String :=
  dedupFirstAux [] xs

/-- Embedding of `typeof item === "string"` on a JSON value. -/
def isStringValue : JsonValue → Bool
  | .str _ => true
  | _ => false

/-- Embedding of `value.filter((item) => typeof item === "string")`
projected to the carried strings. -/
def stringsOf (xs : List JsonValue) : List String :=
  xs.filterMap (fun v => match v with | .str s => some s | _ => none)

/-- The two registries built during one conversion call: `interfaces`
(ordered map from interface name to its ordered property map) and
`enumTypes` (ordered map from enum name to its distinct values), both
embedded as insertion-ordered association lists with JavaScript `Map`
semantics. -/
structure GenState where
  interfaces : List (String × List (String × String))
  enumTypes : List (String × List String)
deriving DecidableEq, Repr

/-- JavaScript `Map.prototype.set` semantics on an insertion-ordered
association list: if the key is present its value is replaced in place
(keeping the original insertion position), otherwise the pair is appended
at the end. -/
def mapSet {α : Type} (m : List (String × α)) (k : String) (v : α) :
    List (String × α) :=
  if m.any (fun p => p.1 == k) then
    m.map (fun p => if p.1 == k then (k, v) else p)
  else m ++ [(k, v)]

mutual

/-- Embedding of `generateTypeDefinition`: classify a JSON node, register
interface and enum definitions in the state, and return the node's type
expression.  The mutable `Map` arguments of the source become explicit
state passing. -/
def generateTypeDefinition (opts : ConversionOptions) :
    JsonValue → String → GenState → GenState × String
  | .null, _, st => (st, if opts.strictNullChecks then "null" else "any")
  | .arr items, name, st =>
      if items.isEmpty then (st, "any[]")
      else if opts.detectEnums && !items.isEmpty && items.all isStringValue then
        let enumName := name ++ "Enum"
        ({ st with enumTypes := mapSet st.enumTypes enumName (dedupFirst (stringsOf items)) },
         enumName)
      else
        let (st2, itemTypes) := generateItemTypes opts items (name ++ "Item") st
        if (dedupFirst itemTypes).length == 1 then
          (st2, itemTypes.headD "" ++ "[]")
        else
          (st2, "(" ++ String.intercalate " | " (dedupFirst itemTypes) ++ ")[]")
  | .obj fields, name, st =>
      let ifaceName := sanitizeName name
      let (st2, properties) := generateProperties opts fields ifaceName st []
      ({ st2 with interfaces := mapSet st2.interfaces ifaceName properties },
       ifaceName)
  | .str _, _, st => (st, "string")
  | .num _, _, st => (st, "number")
  | .bool _, _, st => (st, "boolean")

/-- Embedding of `value.map((item) => generateTypeDefinition(item,
`name`Item, ...))`: classify each array element in order, threading the
registries. -/
def generateItemTypes (opts : ConversionOptions) :
    List JsonValue → String → GenState → GenState × List String
  | [], _, st => (st, [])
  | x :: rest, name, st =>
      let (st2, t) := generateTypeDefinition opts x name st
      let (st3, ts) := generateItemTypes opts rest name st2
      (st3, t :: ts)

/-- Embedding of the `for (const [key, val] of Object.entries(value))`
loop of the object case: build the property map in key insertion order,
recursing with child name `<SanitizedName><CapitalizedPropName>`. -/
def generateProperties (opts : ConversionOptions) :
    List (String × JsonValue) → String → GenState → List (String × String) →
    GenState × List (String × String)
  | [], _, st, props => (st, props)
  | (key, val) :: rest, ifaceName, st, props =>
      let propName := if opts.camelCase then toCamelCase key else key
      let (st2, propType) :=
        generateTypeDefinition opts val (ifaceName ++ capitalizeFirstLetter propName) st
      generateProperties opts rest ifaceName st2 (mapSet props key propType)

end

/-- Embedding of the `enumValues.forEach` loop: one line per enum value,
with a comma after every value but the last. -/
def renderEnumLines : List String → String
  | [] => ""
  | [v] => "  " ++ sanitizeEnumKey v ++ " = \"" ++ v ++ "\"\n"
  | v :: rest =>
      "  " ++ sanitizeEnumKey v ++ " = \"" ++ v ++ "\",\n" ++ renderEnumLines rest

/-- Embedding of the enum-rendering loop of `convertJsonToTypeScript`. -/
def renderEnums : List (String × List String) → String
  | [] => ""
  | (enumName, enumValues) :: rest =>
      "enum " ++ enumName ++ " \x7b\n" ++ renderEnumLines enumValues ++ "\x7d\n\n"
        ++ renderEnums rest

/-- Embedding of the property-line loop of the interface renderer:
`  <formattedKey><optional>: <type>;`. -/
def renderPropertyLines (opts : ConversionOptions) :
    List (String × String) → String
  | [] => ""
  | (key, ty) :: rest =>
      "  " ++ formatPropertyKey opts key ++ (if opts.markOptional then "?" else "")
        ++ ": " ++ ty ++ ";\n" ++ renderPropertyLines opts rest

/-- Embedding of the interface-rendering loop of
`convertJsonToTypeScript`. -/
def renderInterfaces (opts : ConversionOptions) :
    List (String × List (String × String)) → String
  | [] => ""
  | (name, properties) :: rest =>
      "interface " ++ name ++ " \x7b\n" ++ renderPropertyLines opts properties
        ++ "\x7d\n\n" ++ renderInterfaces opts rest

/-- Embedding of JavaScript `String.prototype.trim`: strip whitespace
from both ends. -/
def trimStr (s : String) : String :=
  (((s.data.dropWhile Char.isWhitespace).reverse.dropWhile Char.isWhitespace).reverse).asString

/-- Embedding of `convertJsonToTypeScript`, the public conversion entry
point: walk the value from empty registries, render enums (only when
`detectEnums` is set) followed by interfaces, and trim the result.  The
type expression returned for the root value is discarded, as in the
source. -/
def convertJsonToTypeScript (opts : ConversionOptions)
    (json : JsonValue) (rootName : String) : String :=
  let (st, _) := generateTypeDefinition opts json rootName ⟨[], []⟩
  let enumOutput := if opts.detectEnums then renderEnums st.enumTypes else ""
  trimStr (enumOutput ++ renderInterfaces opts st.interfaces)

/-- Configuration with all four flags enabled. -/
def cfgAllTrue : ConversionOptions := ⟨true, true, true, true⟩

/-- The application's default configuration: `detectEnums` and
`strictNullChecks` on, `camelCase` and `markOptional` off. -/
def cfgDefault : ConversionOptions := ⟨true, false, false, true⟩

/-- The default configuration with `detectEnums` switched off. -/
def cfgNoEnums : ConversionOptions := ⟨false, false, false, true⟩

/-- The end-to-end example input of the specification:
`{"id":1,"user_name":"john_doe","is_active":true,"roles":["admin","user"]}`. -/
def sampleUser : JsonValue :=
  .obj [("id", .num 1), ("user_name", .str "john_doe"),
        ("is_active", .bool true), ("roles", .arr [.str "admin", .str "user"])]

/-- The enum-detection example input of the specification:
`{"roles": ["admin","user","admin"]}`. -/
def sampleRoles : JsonValue :=
  .obj [("roles", .arr [.str "admin", .str "user", .str "admin"])]

/-- A root object with one nested object property: `{"a": {"b": 1}}`. -/
def sampleNested : JsonValue :=
  .obj [("a", .obj [("b", .num 1)])]

/-- An object whose two keys produce child names that sanitize to the same
record name (`$` is stripped by sanitization but legal in a bare
identifier): `{"a$b": {"x": 1}, "ab": {"y": 2}}`. -/
def sampleCollide : JsonValue :=
  .obj [("a$b", .obj [("x", .num 1)]), ("ab", .obj [("y", .num 2)])]

end InterfaceGenerator

namespace InterfaceGenerator

set_option maxRecDepth 100000

/-- C1: the spec's end-to-end example claims the `roles` property is
rendered as `RootObjectRolesEnum[]`.  The code registers the enum and maps
`roles` to the bare enum name `RootObjectRolesEnum`, and the rendered
output contains no bracket character at all, so no reading modulo
whitespace contains the claimed `RootObjectRolesEnum[]`. -/
theorem c1_counterexample :
    (generateTypeDefinition cfgAllTrue sampleUser "RootObject" ⟨[], []⟩).1.interfaces
      = [("RootObject",
          [("id", "number"), ("user_name", "string"),
           ("is_active", "boolean"), ("roles", "RootObjectRolesEnum")])]
    ∧ (convertJsonToTypeScript cfgAllTrue sampleUser "RootObject").data.contains '[' = false := by
  decide

/-- C1 (amended): for the end-to-end example input with all flags on, the
output is the enum `RootObjectRolesEnum` with members `admin` and `user`
and the interface `RootObject` with optional properties `id: number`,
`userName: string`, `isActive: boolean`, and `roles: RootObjectRolesEnum`
(the bare enum name, with no `[]` suffix). -/
theorem c1_end_to_end :
    convertJsonToTypeScript cfgAllTrue sampleUser "RootObject"
      = "enum RootObjectRolesEnum \x7b\n  admin = \"admin\",\n  user = \"user\"\n\x7d\n\n"
        ++ "interface RootObject \x7b\n  id?: number;\n  userName?: string;\n"
        ++ "  isActive?: boolean;\n  roles?: RootObjectRolesEnum;\n\x7d" := by
  decide

/-- C4: the conversion is deterministic — calling it twice on the
identical `(value, rootName, config)` triple yields identical output.  In
the embedding the conversion is a pure function, so the two results are
definitionally equal. -/
theorem c4_deterministic :
    ∀ (opts : ConversionOptions) (value : JsonValue) (rootName : String),
      convertJsonToTypeScript opts value rootName
        = convertJsonToTypeScript opts value rootName :=
  fun _ _ _ => rfl

/-- C5: for `{"roles": ["admin","user","admin"]}` with `detectEnums` on
and root name `RootObject` (whatever the other three flags), the enum
registry holds exactly `RootObjectRolesEnum` with the two distinct members
`admin` and `user` in first-seen order, and the `roles` property's type is
that synthesized enum name; with the default flags the rendered output is
the corresponding enum and interface blocks. -/
theorem c5_enum_detection :
    (∀ (cc mo snc : Bool),
      (generateTypeDefinition ⟨true, cc, mo, snc⟩ sampleRoles "RootObject" ⟨[], []⟩).1
        = ⟨[("RootObject", [("roles", "RootObjectRolesEnum")])],
           [("RootObjectRolesEnum", ["admin", "user"])]⟩)
    ∧ convertJsonToTypeScript cfgDefault sampleRoles "RootObject"
        = "enum RootObjectRolesEnum \x7b\n  admin = \"admin\",\n  user = \"user\"\n\x7d\n\n"
          ++ "interface RootObject \x7b\n  roles: RootObjectRolesEnum;\n\x7d" := by
  refine ⟨?_, by decide⟩
  intro cc mo snc
  cases cc <;> cases mo <;> cases snc <;> decide

/-- Unfolding of the entry point: the output is computed from the two
registries produced by the walk alone; the type expression returned for
the root value itself plays no part. -/
lemma convert_eq_render (opts : ConversionOptions) (v : JsonValue) (name : String) :
    convertJsonToTypeScript opts v name
      = trimStr ((if opts.detectEnums then
            renderEnums (generateTypeDefinition opts v name ⟨[], []⟩).1.enumTypes
          else "")
          ++ renderInterfaces opts (generateTypeDefinition opts v name ⟨[], []⟩).1.interfaces) :=
  rfl

/-- Classifying a list of string values threads the registries through
unchanged and yields the type expression `string` for every element. -/
lemma generateItemTypes_strings (opts : ConversionOptions) (items : List JsonValue)
    (name : String) (st : GenState) (h : items.all isStringValue = true) :
    generateItemTypes opts items name st = (st, items.map (fun _ => "string")) := by
  induction items with
  | nil => rfl
  | cons x rest ih =>
      simp only [List.all_cons, Bool.and_eq_true] at h
      obtain ⟨hx, hrest⟩ := h
      cases x with
      | str s => simp [generateItemTypes, generateTypeDefinition, ih hrest]
      | null => simp [isStringValue] at hx
      | bool b => simp [isStringValue] at hx
      | num n => simp [isStringValue] at hx
      | arr l => simp [isStringValue] at hx
      | obj l => simp [isStringValue] at hx

/-- Deduplication of a list whose elements are all already in `seen`
yields the empty list. -/
lemma dedupFirstAux_eq_nil (seen xs : List String) (h : ∀ x ∈ xs, x ∈ seen) :
    dedupFirstAux seen xs = [] := by
  induction xs with
  | nil => rfl
  | cons x rest ih =>
      simp only [dedupFirstAux]
      rw [if_pos (h x (List.mem_cons_self x rest))]
      exact ih (fun y hy => h y (List.mem_cons_of_mem _ hy))

/-- Deduplicating a non-empty constant list yields the singleton of the
repeated element. -/
lemma dedupFirst_of_all_eq (a : String) (xs : List String)
    (h : ∀ x ∈ xs, x = a) (hne : xs ≠ []) : dedupFirst xs = [a] := by
  cases xs with
  | nil => exact absurd rfl hne
  | cons x rest =>
      have hx : x = a := h x (List.mem_cons_self x rest)
      subst hx
      simp only [dedupFirst, dedupFirstAux]
      rw [if_neg (List.not_mem_nil x)]
      rw [dedupFirstAux_eq_nil]
      intro y hy
      rw [h y (List.mem_cons_of_mem _ hy)]
      exact List.mem_cons_self x []

/-- Core fact behind C2 and C7: with `detectEnums` off, a non-empty array
of strings is handled by the generic sequence rule — nothing is
registered (the state is returned unchanged) and its type expression is
`string[]`. -/
lemma generateTypeDefinition_string_array (opts : ConversionOptions)
    (h : opts.detectEnums = false) (items : List JsonValue) (hne : items ≠ [])
    (hstr : items.all isStringValue = true) (name : String) (st : GenState) :
    generateTypeDefinition opts (.arr items) name st = (st, "string[]") := by
  have hempty : items.isEmpty = false := by
    cases items with
    | nil => exact absurd rfl hne
    | cons x rest => rfl
  have hit := generateItemTypes_strings opts items (name ++ "Item") st hstr
  have hdedup : dedupFirst (items.map (fun _ => "string")) = ["string"] := by
    apply dedupFirst_of_all_eq
    · intro x hx
      rcases List.mem_map.mp hx with ⟨y, _, hy⟩
      exact hy.symm
    · cases items with
      | nil => exact absurd rfl hne
      | cons x rest => simp
  have hhead : (items.map (fun _ => "string")).headD "" = "string" := by
    cases items with
    | nil => exact absurd rfl hne
    | cons x rest => rfl
  simp only [generateTypeDefinition, hempty, h, Bool.false_and, Bool.false_eq_true,
    if_false, hit, hdedup, hhead]
  rfl

/-- C2 (counterexample): with `detectEnums` off and input
`{"roles": ["admin","user","admin"]}`, the enum registry after the walk
is empty — no registration occurred — and the `roles` property's type
expression is `string[]`, not the synthesized enum name; the rendered
output is just the interface block. -/
theorem c2_counterexample :
    (generateTypeDefinition cfgNoEnums sampleRoles "RootObject" ⟨[], []⟩).1.enumTypes = []
    ∧ (generateTypeDefinition cfgNoEnums sampleRoles "RootObject" ⟨[], []⟩).1.interfaces
        = [("RootObject", [("roles", "string[]")])]
    ∧ convertJsonToTypeScript cfgNoEnums sampleRoles "RootObject"
        = "interface RootObject \x7b\n  roles: string[];\n\x7d" := by
  decide

/-- C2 (amended): when `detectEnums` is false, enum registration does not
occur during the walk — the enum registry is left unchanged — and a
non-empty all-string array falls through to the generic sequence rule, so
the property's type expression is `string[]`, not the synthesized enum
name. -/
theorem c2_no_registration_when_disabled (opts : ConversionOptions)
    (h : opts.detectEnums = false) (items : List JsonValue) (hne : items ≠ [])
    (hstr : items.all isStringValue = true) (name : String) (st : GenState) :
    (generateTypeDefinition opts (.arr items) name st).1.enumTypes = st.enumTypes
    ∧ (generateTypeDefinition opts (.arr items) name st).2 = "string[]" := by
  rw [generateTypeDefinition_string_array opts h items hne hstr name st]
  exact ⟨rfl, rfl⟩

/-- Witness for C2's amended theorem at a concrete input. -/
theorem c2_no_registration_when_disabled_witness :
    (generateTypeDefinition cfgNoEnums (.arr [.str "admin", .str "user"])
        "RootObjectRoles" ⟨[], []⟩).1.enumTypes = []
    ∧ (generateTypeDefinition cfgNoEnums (.arr [.str "admin", .str "user"])
        "RootObjectRoles" ⟨[], []⟩).2 = "string[]" :=
  c2_no_registration_when_disabled cfgNoEnums rfl
    [.str "admin", .str "user"] (List.cons_ne_nil _ _) (by decide) "RootObjectRoles" ⟨[], []⟩

/-- C3 (counterexample): for the root object `{"a": {"b": 1}}` the root
node is discovered before its nested object child, yet the registration
order is `[RootObjectA, RootObject]` — the nested record is registered
first, because a record is registered only when its node's walk completes
— and the rendered output lists the nested interface before the root
interface, contradicting definition-in-discovery-order. -/
theorem c3_counterexample :
    (generateTypeDefinition cfgNoEnums sampleNested "RootObject" ⟨[], []⟩).1.interfaces.map
        Prod.fst = ["RootObjectA", "RootObject"]
    ∧ (["RootObjectA", "RootObject"] : List String) ≠ ["RootObject", "RootObjectA"]
    ∧ convertJsonToTypeScript cfgNoEnums sampleNested "RootObject"
        = "interface RootObjectA \x7b\n  b: number;\n\x7d\n\n"
          ++ "interface RootObject \x7b\n  a: RootObjectA;\n\x7d" := by
  decide

/-- C3 (amended): the rendered output is strictly all enum blocks (only
when enabled) in registration order followed by all record blocks in
registration order, with trailing whitespace trimmed; records, however,
are registered when their node's walk completes (post-order), so for a
root object with a nested object property the nested record precedes the
root record, as the concrete conjuncts show. -/
theorem c3_registration_and_render_order :
    (∀ (opts : ConversionOptions) (v : JsonValue) (name : String),
      convertJsonToTypeScript opts v name
        = trimStr ((if opts.detectEnums then
              renderEnums (generateTypeDefinition opts v name ⟨[], []⟩).1.enumTypes
            else "")
            ++ renderInterfaces opts (generateTypeDefinition opts v name ⟨[], []⟩).1.interfaces))
    ∧ (generateTypeDefinition cfgNoEnums sampleNested "RootObject" ⟨[], []⟩).1.interfaces.map
        Prod.fst = ["RootObjectA", "RootObject"]
    ∧ convertJsonToTypeScript cfgNoEnums sampleNested "RootObject"
        = "interface RootObjectA \x7b\n  b: number;\n\x7d\n\n"
          ++ "interface RootObject \x7b\n  a: RootObjectA;\n\x7d" := by
  exact ⟨fun opts v name => convert_eq_render opts v name, by decide, by decide⟩

/-- C7: with `detectEnums` disabled, every non-empty all-string array
receives the generic sequence type `string[]` (and registers nothing),
and for `{"roles": ["admin","user","admin"]}` the rendered output is the
single interface with `roles: string[]` and no enum block. -/
theorem c7_string_arrays_without_enums (opts : ConversionOptions)
    (h : opts.detectEnums = false) (items : List JsonValue) (hne : items ≠ [])
    (hstr : items.all isStringValue = true) (name : String) (st : GenState) :
    generateTypeDefinition opts (.arr items) name st = (st, "string[]")
    ∧ convertJsonToTypeScript cfgNoEnums sampleRoles "RootObject"
        = "interface RootObject \x7b\n  roles: string[];\n\x7d" :=
  ⟨generateTypeDefinition_string_array opts h items hne hstr name st, by decide⟩

/-- Witness for C7's theorem at a concrete input. -/
theorem c7_string_arrays_without_enums_witness :
    generateTypeDefinition cfgNoEnums (.arr [.str "admin", .str "user", .str "admin"])
        "RootObjectRoles" ⟨[], []⟩ = (⟨[], []⟩, "string[]")
    ∧ convertJsonToTypeScript cfgNoEnums sampleRoles "RootObject"
        = "interface RootObject \x7b\n  roles: string[];\n\x7d" :=
  c7_string_arrays_without_enums cfgNoEnums rfl
    [.str "admin", .str "user", .str "admin"] (List.cons_ne_nil _ _) (by decide)
    "RootObjectRoles" ⟨[], []⟩

/-- Classifying a list of array elements produces exactly one type
expression per element. -/
lemma generateItemTypes_length (opts : ConversionOptions) (items : List JsonValue)
    (name : String) (st : GenState) :
    (generateItemTypes opts items name st).2.length = items.length := by
  induction items generalizing st with
  | nil => rfl
  | cons x rest ih =>
      simp only [generateItemTypes]
      rcases h1 : generateTypeDefinition opts x name st with ⟨st2, t⟩
      rcases h2 : generateItemTypes opts rest name st2 with ⟨st3, ts⟩
      have hlen := ih st2
      rw [h2] at hlen
      simpa using hlen

/-- Membership in the deduplication worker: an element survives exactly
when it occurs in the input and was not already seen. -/
lemma mem_dedupFirstAux (seen xs : List String) (y : String) :
    y ∈ dedupFirstAux seen xs ↔ y ∈ xs ∧ y ∉ seen := by
  induction xs generalizing seen with
  | nil => simp [dedupFirstAux]
  | cons x rest ih =>
      simp only [dedupFirstAux]
      by_cases hx : x ∈ seen
      · rw [if_pos hx, ih]
        constructor
        · rintro ⟨h1, h2⟩
          exact ⟨List.mem_cons_of_mem _ h1, h2⟩
        · rintro ⟨h1, h2⟩
          rcases List.mem_cons.mp h1 with h | h
          · subst h; exact absurd hx h2
          · exact ⟨h, h2⟩
      · rw [if_neg hx]
        constructor
        · intro hmem
          rcases List.mem_cons.mp hmem with h | h
          · subst h
            exact ⟨List.mem_cons_self _ _, hx⟩
          · rw [ih] at h
            exact ⟨List.mem_cons_of_mem _ h.1,
                   fun hy => h.2 (List.mem_cons_of_mem _ hy)⟩
        · rintro ⟨h1, h2⟩
          rcases List.mem_cons.mp h1 with h | h
          · subst h
            exact List.mem_cons_self _ _
          · by_cases hyx : y = x
            · subst hyx
              exact List.mem_cons_self _ _
            · refine List.mem_cons_of_mem _ ?_
              rw [ih]
              refine ⟨h, fun hy => ?_⟩
              rcases List.mem_cons.mp hy with h3 | h3
              · exact hyx h3
              · exact h2 h3

/-- The deduplication worker never produces duplicates. -/
lemma nodup_dedupFirstAux (seen xs : List String) : (dedupFirstAux seen xs).Nodup := by
  induction xs generalizing seen with
  | nil => exact List.nodup_nil
  | cons x rest ih =>
      simp only [dedupFirstAux]
      by_cases hx : x ∈ seen
      · rw [if_pos hx]; exact ih seen
      · rw [if_neg hx]
        refine List.nodup_cons.mpr ⟨fun hmem => ?_, ih (x :: seen)⟩
        rw [mem_dedupFirstAux] at hmem
        exact hmem.2 (List.mem_cons_self x seen)

/-- The deduplication worker keeps elements in their original order: its
result is a sublist of the input. -/
lemma sublist_dedupFirstAux (seen xs : List String) :
    (dedupFirstAux seen xs).Sublist xs := by
  induction xs generalizing seen with
  | nil => exact List.Sublist.refl []
  | cons x rest ih =>
      simp only [dedupFirstAux]
      by_cases hx : x ∈ seen
      · rw [if_pos hx]; exact (ih seen).cons x
      · rw [if_neg hx]; exact (ih (x :: seen)).cons₂ x

/-- The code's singleton test on the deduplicated list is equivalent to
all elements of the original non-empty list being identical (equal to the
first one). -/
lemma dedupFirst_length_one (ts : List String) (hne : ts ≠ []) :
    (dedupFirst ts).length = 1 ↔ ∀ t ∈ ts, t = ts.headD "" := by
  cases ts with
  | nil => exact absurd rfl hne
  | cons a rest =>
      have hd : dedupFirst (a :: rest) = a :: dedupFirstAux [a] rest := by
        simp [dedupFirst, dedupFirstAux]
      constructor
      · intro h t ht
        rw [hd, List.length_cons] at h
        have haux : dedupFirstAux [a] rest = [] :=
          List.length_eq_zero.mp (by omega)
        simp only [List.headD_cons]
        rcases List.mem_cons.mp ht with h1 | h1
        · exact h1
        · by_contra hne2
          have hmem : t ∈ dedupFirstAux [a] rest := by
            rw [mem_dedupFirstAux]
            exact ⟨h1, by simpa using hne2⟩
          rw [haux] at hmem
          exact absurd hmem (List.not_mem_nil t)
      · intro h
        have heq : dedupFirst (a :: rest) = [a] :=
          dedupFirst_of_all_eq a (a :: rest)
            (fun x hx => by simpa using h x hx) (List.cons_ne_nil a rest)
        rw [heq]
        rfl

/-- C6: a non-empty array that is not taken as an enum candidate has its
elements classified with child name `<Name>Item`; the resulting state is
the one threaded through those classifications, and the type expression
is `<T>[]` when all element type expressions are textually identical and
otherwise the parenthesized union of the deduplicated expressions — a
list with no duplicates that keeps exactly the distinct element type
expressions in first-seen order. -/
theorem c6_array_union (opts : ConversionOptions) (items : List JsonValue)
    (name : String) (st : GenState) (hne : items ≠ [])
    (hnotenum : ¬(opts.detectEnums = true ∧ items.all isStringValue = true)) :
    generateTypeDefinition opts (.arr items) name st
      = ((generateItemTypes opts items (name ++ "Item") st).1,
         if ∀ t ∈ (generateItemTypes opts items (name ++ "Item") st).2,
              t = (generateItemTypes opts items (name ++ "Item") st).2.headD ""
         then (generateItemTypes opts items (name ++ "Item") st).2.headD "" ++ "[]"
         else "(" ++ String.intercalate " | "
                (dedupFirst (generateItemTypes opts items (name ++ "Item") st).2)
              ++ ")[]")
    ∧ (dedupFirst (generateItemTypes opts items (name ++ "Item") st).2).Nodup
    ∧ (dedupFirst (generateItemTypes opts items (name ++ "Item") st).2).Sublist
        (generateItemTypes opts items (name ++ "Item") st).2
    ∧ ∀ t, t ∈ dedupFirst (generateItemTypes opts items (name ++ "Item") st).2
          ↔ t ∈ (generateItemTypes opts items (name ++ "Item") st).2 := by
  have hempty : items.isEmpty = false := by
    cases items with
    | nil => exact absurd rfl hne
    | cons x rest => rfl
  have hcond : (opts.detectEnums && !items.isEmpty && items.all isStringValue) = false := by
    cases hd : opts.detectEnums with
    | false => simp [hd]
    | true =>
        cases hs : items.all isStringValue with
        | false => simp [hs]
        | true => exact absurd ⟨hd, hs⟩ hnotenum
  refine ⟨?_, nodup_dedupFirstAux _ _, sublist_dedupFirstAux _ _, fun t => by
    simp only [dedupFirst, mem_dedupFirstAux, List.not_mem_nil, not_false_iff,
      and_true]⟩
  have step1 : generateTypeDefinition opts (.arr items) name st
      = (match generateItemTypes opts items (name ++ "Item") st with
         | (st2, itemTypes) =>
            if (dedupFirst itemTypes).length == 1 then
              (st2, itemTypes.headD "" ++ "[]")
            else
              (st2, "(" ++ String.intercalate " | " (dedupFirst itemTypes) ++ ")[]")) := by
    simp only [generateTypeDefinition]
    rw [if_neg (by simp [hempty]), if_neg (by simp [hcond])]
  rcases hr : generateItemTypes opts items (name ++ "Item") st with ⟨st2, ts⟩
  have hlen : ts.length = items.length := by
    have h := generateItemTypes_length opts items (name ++ "Item") st
    rw [hr] at h
    exact h
  have htsne : ts ≠ [] := by
    intro hnil
    rw [hnil] at hlen
    cases items with
    | nil => exact hne rfl
    | cons x rest => simp at hlen
  rw [step1, hr]
  dsimp only
  by_cases hall : ∀ t ∈ ts, t = ts.headD ""
  · have h1 : (dedupFirst ts).length = 1 := (dedupFirst_length_one ts htsne).mpr hall
    have hb : ((dedupFirst ts).length == 1) = true := by simp [h1]
    rw [if_pos hb, if_pos hall]
  · have h1 : (dedupFirst ts).length ≠ 1 :=
      fun h => hall ((dedupFirst_length_one ts htsne).mp h)
    have hb : ((dedupFirst ts).length == 1) = false := by simpa using h1
    rw [if_neg (by simp [hb]), if_neg hall]

/-- Witness for C6's theorem: the mixed array `[1, "a", 2]` gets the
two-member union type `(number | string)[]` with no duplicate members. -/
theorem c6_array_union_witness :
    generateTypeDefinition cfgDefault (.arr [.num 1, .str "a", .num 2]) "Root" ⟨[], []⟩
      = (⟨[], []⟩, "(number | string)[]") := by
  have h := c6_array_union cfgDefault [.num 1, .str "a", .num 2] "Root" ⟨[], []⟩
    (List.cons_ne_nil _ _) (by decide)
  exact h.1.trans (by decide)

/-- Unfolding of `mapSet` when the key is already present. -/
lemma mapSet_of_any_true {α : Type} (m : List (String × α)) (k : String) (v : α)
    (h : m.any (fun p => p.1 == k) = true) :
    mapSet m k v = m.map (fun p => if p.1 == k then (k, v) else p) := by
  unfold mapSet
  rw [if_pos h]

/-- Unfolding of `mapSet` when the key is absent. -/
lemma mapSet_of_any_false {α : Type} (m : List (String × α)) (k : String) (v : α)
    (h : m.any (fun p => p.1 == k) = false) :
    mapSet m k v = m ++ [(k, v)] := by
  unfold mapSet
  rw [if_neg (by simp [h])]

/-- Replacing the entries of key `k` twice is the same as replacing them
once with the second value. -/
lemma replace_comp {α : Type} (k : String) (v₁ v₂ : α) (p : String × α) :
    (fun q : String × α => if q.1 == k then (k, v₂) else q)
      ((fun q : String × α => if q.1 == k then (k, v₁) else q) p)
      = if p.1 == k then (k, v₂) else p := by
  by_cases hp : p.1 = k
  · have hb : (p.1 == k) = true := beq_iff_eq.mpr hp
    have hb2 : (((k, v₁) : String × α).1 == k) = true := beq_iff_eq.mpr rfl
    simp only [if_pos hb, if_pos hb2]
  · have hb : (p.1 == k) = false := by simpa using hp
    simp only [if_neg (by simp [hb] : ¬(p.1 == k) = true)]

/-- Overwriting the same key twice in a registry is the same as writing
only the second value: the later registration silently replaces the
earlier one. -/
lemma mapSet_mapSet {α : Type} (m : List (String × α)) (k : String) (v₁ v₂ : α) :
    mapSet (mapSet m k v₁) k v₂ = mapSet m k v₂ := by
  cases hany : m.any (fun p => p.1 == k) with
  | true =>
      have hfun : ((fun p : String × α => p.1 == k)
            ∘ (fun p : String × α => if p.1 == k then (k, v₁) else p))
          = fun p : String × α => p.1 == k := by
        funext p
        by_cases hp : p.1 = k <;> simp [Function.comp, hp]
      have hany2 : (m.map (fun p => if p.1 == k then (k, v₁) else p)).any
          (fun p => p.1 == k) = true := by
        rw [List.any_map, hfun]
        exact hany
      rw [mapSet_of_any_true m k v₁ hany, mapSet_of_any_true _ k v₂ hany2,
        mapSet_of_any_true m k v₂ hany, List.map_map]
      exact List.map_congr_left (fun p _ => replace_comp k v₁ v₂ p)
  | false =>
      have hnokey : ∀ p ∈ m, (p.1 == k) = false := by
        intro p hp
        simpa using List.any_eq_false.mp hany p hp
      have hany2 : ((m ++ [(k, v₁)]).any fun p => p.1 == k) = true := by
        rw [List.any_append]
        simp
      rw [mapSet_of_any_false m k v₁ hany, mapSet_of_any_true _ k v₂ hany2,
        List.map_append, mapSet_of_any_false m k v₂ hany]
      have hmapid : m.map (fun p => if p.1 == k then (k, v₂) else p) = m := by
        conv_rhs => rw [← List.map_id m]
        refine List.map_congr_left (fun p hp => ?_)
        rw [if_neg (by simp [hnokey p hp] : ¬(p.1 == k) = true)]
        rfl
      have hsingle : [((k, v₁) : String × α)].map
          (fun p => if p.1 == k then (k, v₂) else p) = [(k, v₂)] := by
        simp
      rw [hmapid, hsingle]

/-- C8: when two nodes' names sanitize to the same record name, the later
registration overwrites the earlier (general `mapSet` fact), and for the
concrete input with keys `a$b` and `ab` the registry holds exactly one
entry for `RootObjectAb`, carrying the properties of the last-visited
occurrence, and the rendered output has exactly one such interface
block. -/
theorem c8_collision_last_write_wins :
    (∀ (m : List (String × List (String × String))) (k : String)
        (v₁ v₂ : List (String × String)),
      mapSet (mapSet m k v₁) k v₂ = mapSet m k v₂)
    ∧ (generateTypeDefinition cfgNoEnums sampleCollide "RootObject" ⟨[], []⟩).1.interfaces
        = [("RootObjectAb", [("y", "number")]),
           ("RootObject", [("a$b", "RootObjectAb"), ("ab", "RootObjectAb")])]
    ∧ convertJsonToTypeScript cfgNoEnums sampleCollide "RootObject"
        = "interface RootObjectAb \x7b\n  y: number;\n\x7d\n\n"
          ++ "interface RootObject \x7b\n  a$b: RootObjectAb;\n  ab: RootObjectAb;\n\x7d" :=
  ⟨fun m k v₁ v₂ => mapSet_mapSet m k v₁ v₂, by decide, by decide⟩

/-- C9: the conversion is a total function — for every configuration,
JSON value and root name it runs to completion and returns a string.  The
embedding is accepted by Lean's termination checker as a total function,
so the result always exists. -/
theorem c9_total :
    ∀ (opts : ConversionOptions) (value : JsonValue) (rootName : String),
      ∃ s : String, convertJsonToTypeScript opts value rootName = s :=
  fun _ _ _ => ⟨_, rfl⟩

/-- Test for a primitive JSON value that is not a string: null, boolean,
or number. -/
def isPrimNonString : JsonValue → Bool
  | .null => true
  | .bool _ => true
  | .num _ => true
  | _ => false

/-- Classifying a primitive non-string node registers nothing: the state
comes back unchanged. -/
lemma generateTypeDefinition_state_of_prim (opts : ConversionOptions) (v : JsonValue)
    (name : String) (st : GenState) (h : isPrimNonString v = true) :
    (generateTypeDefinition opts v name st).1 = st := by
  cases v with
  | null => rfl
  | bool b => rfl
  | num n => rfl
  | str s => rfl
  | arr l => simp [isPrimNonString] at h
  | obj l => simp [isPrimNonString] at h

/-- Classifying a list of primitive non-string nodes registers nothing. -/
lemma generateItemTypes_state_of_prim (opts : ConversionOptions) (items : List JsonValue)
    (name : String) :
    ∀ (st : GenState), items.all isPrimNonString = true →
      (generateItemTypes opts items name st).1 = st := by
  induction items with
  | nil => intro st _; rfl
  | cons x rest ih =>
      intro st h
      simp only [List.all_cons, Bool.and_eq_true] at h
      simp only [generateItemTypes]
      rcases hx : generateTypeDefinition opts x name st with ⟨st2, t⟩
      dsimp only
      rw [ih st2 h.2]
      have hs := generateTypeDefinition_state_of_prim opts x name st h.1
      rw [hx] at hs
      exact hs

/-- A non-empty array of primitive non-string elements is not an enum
candidate and registers nothing: the walk returns the state unchanged. -/
lemma generateTypeDefinition_arr_prim_state (opts : ConversionOptions)
    (items : List JsonValue) (name : String) (st : GenState)
    (hne : items ≠ []) (hprim : items.all isPrimNonString = true) :
    (generateTypeDefinition opts (.arr items) name st).1 = st := by
  have hempty : items.isEmpty = false := by
    cases items with
    | nil => exact absurd rfl hne
    | cons x rest => rfl
  have hallstr : items.all isStringValue = false := by
    cases items with
    | nil => exact absurd rfl hne
    | cons x rest =>
        simp only [List.all_cons, Bool.and_eq_true] at hprim
        have hx : isStringValue x = false := by
          rcases hprim with ⟨h1, _⟩
          cases x with
          | null => rfl
          | bool b => rfl
          | num n => rfl
          | str s => simp [isPrimNonString] at h1
          | arr l => simp [isPrimNonString] at h1
          | obj l => simp [isPrimNonString] at h1
        rw [List.all_cons, hx, Bool.false_and]
  have hcond : (opts.detectEnums && !items.isEmpty && items.all isStringValue) = false := by
    rw [hallstr, Bool.and_false]
  have step1 : generateTypeDefinition opts (.arr items) name st
      = (match generateItemTypes opts items (name ++ "Item") st with
         | (st2, itemTypes) =>
            if (dedupFirst itemTypes).length == 1 then
              (st2, itemTypes.headD "" ++ "[]")
            else
              (st2, "(" ++ String.intercalate " | " (dedupFirst itemTypes) ++ ")[]")) := by
    simp only [generateTypeDefinition]
    rw [if_neg (by simp [hempty]), if_neg (by simp [hcond])]
  rw [step1]
  rcases hr : generateItemTypes opts items (name ++ "Item") st with ⟨st2, ts⟩
  have hst2 : st2 = st := by
    have hs := generateItemTypes_state_of_prim opts items (name ++ "Item") st hprim
    rw [hr] at hs
    exact hs
  dsimp only
  by_cases hb : ((dedupFirst ts).length == 1) = true
  · rw [if_pos hb]
    exact hst2
  · rw [if_neg hb]
    exact hst2

/-- C10: the conversion's output is computed from the registries alone —
the type expression synthesized for the root value is discarded — and
therefore every root value registering no definition converts to the
empty string: every primitive (null, boolean, number, string), the empty
array, and every non-empty array of non-string primitives. -/
theorem c10_root_expression_discarded :
    (∀ (opts : ConversionOptions) (v : JsonValue) (name : String),
      convertJsonToTypeScript opts v name
        = trimStr ((if opts.detectEnums then
              renderEnums (generateTypeDefinition opts v name ⟨[], []⟩).1.enumTypes
            else "")
            ++ renderInterfaces opts (generateTypeDefinition opts v name ⟨[], []⟩).1.interfaces))
    ∧ (∀ (opts : ConversionOptions) (name : String) (b : Bool) (n : Int) (s : String),
        convertJsonToTypeScript opts .null name = ""
        ∧ convertJsonToTypeScript opts (.bool b) name = ""
        ∧ convertJsonToTypeScript opts (.num n) name = ""
        ∧ convertJsonToTypeScript opts (.str s) name = ""
        ∧ convertJsonToTypeScript opts (.arr []) name = "")
    ∧ (∀ (opts : ConversionOptions) (name : String) (items : List JsonValue),
        items ≠ [] → items.all isPrimNonString = true →
        convertJsonToTypeScript opts (.arr items) name = "") := by
  refine ⟨fun opts v name => convert_eq_render opts v name, ?_, ?_⟩
  · intro opts name b n s
    refine ⟨?_, ?_, ?_, ?_, ?_⟩ <;>
      · rw [convert_eq_render]
        cases h : opts.detectEnums <;> rfl
  · intro opts name items hne hprim
    rw [convert_eq_render]
    have hst : (generateTypeDefinition opts (.arr items) name ⟨[], []⟩).1 = ⟨[], []⟩ :=
      generateTypeDefinition_arr_prim_state opts items name ⟨[], []⟩ hne hprim
    rw [hst]
    cases h : opts.detectEnums <;> rfl

/-- Witness for C10's theorem: a concrete array of non-string primitives
converts to the empty string. -/
theorem c10_root_expression_discarded_witness :
    convertJsonToTypeScript cfgDefault (.arr [.num 1, .bool true, .null]) "Root" = "" :=
  c10_root_expression_discarded.2.2 cfgDefault "Root" [.num 1, .bool true, .null]
    (List.cons_ne_nil _ _) (by decide)

end InterfaceGenerator
